import Mathlib

/-!
Shallow embedding of the `triple-a/electrum-client` TypeScript sources
(`src/electrum-api/ElectrumApi.ts` and `src/electrum-client/Agent.ts`)
and proofs about them.

External primitives (the `crypto.subtle` SHA-256 digest and the BitcoinJS
transaction / block parsers) are not part of this repository; they are
abstracted as function parameters carried in environment records, so every
theorem is universally quantified over them.  The hex codec
(`bytesToHex` / `hexToBytes`) lives in `src/electrum-ws`, which is not part
of the provided sources; it is modelled from the spec's description
("hex-encoded", lowercase).
-/

namespace Electrum

/-- Byte strings are lists of naturals (each entry one byte). -/
abbrev Bytes := List Nat

/-- Modelled from the spec: value of one lowercase hex digit
(part of the `electrum-ws` hex codec, not included in `src/`). -/
def hexCharToNibble (c : Char) : Nat :=
  if c.toNat ≥ 97 then c.toNat - 87
  else if c.toNat ≥ 65 then c.toNat - 55
  else c.toNat - 48

/-- Modelled from the spec: decode pairs of hex digits into bytes
(part of the `electrum-ws` hex codec, not included in `src/`). -/
def hexPairsToBytes : List Char → Bytes
  | c1 :: c2 :: rest => (hexCharToNibble c1 * 16 + hexCharToNibble c2) :: hexPairsToBytes rest
  | _ => []

/-- Modelled from the spec: `hexToBytes` of `src/electrum-ws`. -/
def hexToBytes (s : String) : Bytes := hexPairsToBytes s.data

/-- Modelled from the spec: one nibble as a lowercase hex digit. -/
def nibbleToHexChar (n : Nat) : Char :=
  if n < 10 then Char.ofNat (48 + n) else Char.ofNat (87 + n)

/-- Modelled from the spec: one byte as two lowercase hex digits. -/
def byteToHexChars (b : Nat) : List Char :=
  [nibbleToHexChar (b / 16 % 16), nibbleToHexChar (b % 16)]

/-- Modelled from the spec: `bytesToHex` of `src/electrum-ws`. -/
def bytesToHex (b : Bytes) : String :=
  String.mk (b.map byteToHexChars).flatten

/-- `SHA-256d(x) = SHA-256(SHA-256(x))`, over an abstract SHA-256 digest
(the source calls the external `crypto.subtle.digest('SHA-256', ·)`). -/
def sha256d (sha : Bytes → Bytes) (b : Bytes) : Bytes := sha (sha b)

/-! ## Data model (`src/electrum-api/types.ts` via the spec, §3) -/

/-- `PlainBlockHeader` (spec §3; produced by `blockHeaderToPlain`). -/
structure PlainBlockHeader where
  blockHash : String
  blockHeight : Int
  timestamp : Nat
  bits : Nat
  nonce : Nat
  version : Int
  weight : Nat
  prevHash : Option String
  merkleRoot : Option String
deriving DecidableEq, Repr

/-- A witness stack item is either a small integer or a hex string
(`inputToPlain`, ElectrumApi.ts lines 313–316). -/
inductive WitnessItem where
  | num (n : Int)
  | hex (s : String)
deriving DecidableEq, Repr

/-- `PlainInput` (spec §3). -/
structure PlainInput where
  script : String
  transactionHash : String
  address : Option String
  witness : List WitnessItem
  index : Nat
  outputIndex : Nat
  sequence : Nat
deriving DecidableEq, Repr

/-- `PlainOutput` (spec §3). -/
structure PlainOutput where
  script : String
  address : String
  value : Int
  index : Nat
deriving DecidableEq, Repr

/-- `PlainTransaction` (spec §3). -/
structure PlainTransaction where
  transactionHash : String
  inputs : List PlainInput
  outputs : List PlainOutput
  version : Int
  vsize : Nat
  isCoinbase : Bool
  weight : Nat
  blockHash : Option String
  blockHeight : Option Int
  timestamp : Option Nat
  replaceByFee : Bool
deriving DecidableEq, Repr

/-- `Receipt` (spec §3): an Electrum history entry. -/
structure Receipt where
  blockHeight : Int
  transactionHash : String
  fee : Option Int
deriving DecidableEq, Repr

/-- `Balance` (spec §3). -/
structure Balance where
  confirmed : Int
  unconfirmed : Int
deriving DecidableEq, Repr

/-! ## BitcoinJS objects, abstracted

The source converts objects produced by the external `bitcoinjs-lib`
library.  We model a parsed transaction / block as a record holding the
values the source reads off it (method results such as `getId()` become
fields). -/

/-- An input of a parsed BitcoinJS transaction: the fields
`inputToPlain` and `deriveAddressFromInput` read. -/
structure BJSInput where
  hash : Bytes
  script : Bytes
  witness : List (Int ⊕ Bytes)
  index : Nat
  sequence : Nat
deriving DecidableEq, Repr

/-- An output of a parsed BitcoinJS transaction. -/
structure BJSOutput where
  script : Bytes
  value : Int
deriving DecidableEq, Repr

/-- A parsed BitcoinJS transaction: the values `transactionToPlain`
reads from the external library object. -/
structure BJSTx where
  getId : String
  ins : List BJSInput
  outs : List BJSOutput
  version : Int
  virtualSize : Nat
  isCoinbase : Bool
  weight : Nat
deriving DecidableEq, Repr

/-- A parsed BitcoinJS block header: the values `blockHeaderToPlain`
reads from the external library object. -/
structure BJSBlock where
  getId : String
  timestamp : Nat
  bits : Nat
  nonce : Nat
  version : Int
  weight : Nat
  prevHash : Option Bytes
  merkleRoot : Option Bytes
deriving DecidableEq, Repr

/-! ## ElectrumApi conversions (ElectrumApi.ts lines 278–330, 419–433) -/

/-- `inputToPlain` (ElectrumApi.ts lines 308–321); the external
`deriveAddressFromInput` is abstracted as the parameter `derive`. -/
def inputToPlain (derive : BJSInput → Option String) (input : BJSInput) (index : Nat) :
    PlainInput where
  script := bytesToHex input.script
  transactionHash := bytesToHex input.hash.reverse
  address := derive input
  witness := input.witness.map fun w =>
    match w with
    | .inl n => .num n
    | .inr b => .hex (bytesToHex b)
  index := index
  outputIndex := input.index
  sequence := input.sequence

/-- `outputToPlain` (ElectrumApi.ts lines 323–330); the external
`BitcoinJS.address.fromOutputScript` is abstracted as `addrOf`. -/
def outputToPlain (addrOf : Bytes → String) (output : BJSOutput) (index : Nat) :
    PlainOutput where
  script := bytesToHex output.script
  address := addrOf output.script
  value := output.value
  index := index

/-- `transactionToPlain` (ElectrumApi.ts lines 278–306): block fields are
`null` unless a `plainHeader` is supplied; `replaceByFee` holds iff some
input's sequence is below `0xfffffffe`. -/
def transactionToPlain (derive : BJSInput → Option String) (addrOf : Bytes → String)
    (tx : BJSTx) (plainHeader : Option PlainBlockHeader) : PlainTransaction :=
  let inputs := tx.ins.mapIdx fun i input => inputToPlain derive input i
  let outputs := tx.outs.mapIdx fun i output => outputToPlain addrOf output i
  { transactionHash := tx.getId
    inputs := inputs
    outputs := outputs
    version := tx.version
    vsize := tx.virtualSize
    isCoinbase := tx.isCoinbase
    weight := tx.weight
    blockHash := plainHeader.map (·.blockHash)
    blockHeight := plainHeader.map (·.blockHeight)
    timestamp := plainHeader.map (·.timestamp)
    replaceByFee := inputs.any fun input => input.sequence < 0xfffffffe }

/-- `blockHeaderToPlain` (ElectrumApi.ts lines 419–433): stamps the given
`height` into the result and hex-encodes the byte-reversed
`prevHash` / `merkleRoot` when present. -/
def blockHeaderToPlain (block : BJSBlock) (height : Int) : PlainBlockHeader where
  blockHash := block.getId
  blockHeight := height
  timestamp := block.timestamp
  bits := block.bits
  nonce := block.nonce
  version := block.version
  weight := block.weight
  prevHash := block.prevHash.map fun b => bytesToHex b.reverse
  merkleRoot := block.merkleRoot.map fun b => bytesToHex b.reverse

/-! ## Merkle proof verification (ElectrumApi.ts lines 143–172) -/

/-- Server response of `blockchain.transaction.get_merkle`
(ElectrumApi.ts lines 144–148). -/
structure MerkleProof where
  block_height : Int
  merkle : List String
  pos : Nat
deriving DecidableEq, Repr

/-- One iteration of the loop of `getTransactionMerkleRoot`
(ElectrumApi.ts lines 155–168): state is `(i, node)`. -/
def merkleFoldStep (sha : Bytes → Bytes) (st : Nat × Bytes) (pairHash : String) :
    Nat × Bytes :=
  let pairNode := (hexToBytes pairHash).reverse
  let concatenated := if st.1 % 2 = 0 then st.2 ++ pairNode else pairNode ++ st.2
  (st.1 / 2, sha256d sha concatenated)

/-- `getTransactionMerkleRoot` (ElectrumApi.ts lines 143–172): fold the
server's Merkle path onto the byte-reversed tx hash, then byte-reverse the
result and hex-encode it.  The RPC response is passed in as `proof`. -/
def getTransactionMerkleRoot (sha : Bytes → Bytes) (hash : String) (proof : MerkleProof) :
    String :=
  let init : Nat × Bytes := (proof.pos, (hexToBytes hash).reverse)
  let fin := proof.merkle.foldl (merkleFoldStep sha) init
  bytesToHex fin.2.reverse

/-- Modelled from the spec, §4.4.1 (for the refinement part of C1): the
folding algorithm stated in the spec's own words — `node` starts as the
byte-reversed tx hash, `i = pos`; per step the pair hash is byte-reversed
and SHA-256d is applied to `node ++ pair` when `i` is even and
`pair ++ node` when `i` is odd, after which `i` is halved; finally `node`
is byte-reversed and hex-encoded. -/
def specMerkleRootLoop (sha : Bytes → Bytes) : List String → Nat → Bytes → Bytes
  | [], _, node => node
  | pairHash :: rest, i, node =>
    let pair := (hexToBytes pairHash).reverse
    let node' := if i % 2 = 0 then sha256d sha (node ++ pair) else sha256d sha (pair ++ node)
    specMerkleRootLoop sha rest (i / 2) node'

/-- Modelled from the spec, §4.4.1: the computed Merkle root. -/
def specMerkleRoot (sha : Bytes → Bytes) (hash : String) (proof : MerkleProof) : String :=
  bytesToHex (specMerkleRootLoop sha proof.merkle proof.pos ((hexToBytes hash).reverse)).reverse

/-! ## `getTransaction` (ElectrumApi.ts lines 122–141) -/

/-- The error message thrown on a Merkle-proof mismatch
(ElectrumApi.ts line 134). -/
def merkleErrorMsg (hash : String) (height : Int) : String :=
  "Invalid merkle proof for given block height: " ++ hash ++ ", " ++ toString height

/-- The `heightOrBlockHeader` optional argument of `getTransaction`. -/
inductive HeightOrHeader where
  | noArg
  | height (n : Int)
  | header (h : PlainBlockHeader)
deriving DecidableEq, Repr

/-- Environment of server responses and external primitives used by the
`ElectrumApi` methods.  `getBlock` combines the `blockchain.block.header`
RPC with the external `BitcoinJS.Block.fromHex` parse; `parseTx` is the
external `BitcoinJS.Transaction.fromHex`; `getMerkle` and `getRawTx` are
the server's responses to the corresponding RPCs. -/
structure ApiEnv where
  sha : Bytes → Bytes
  derive : BJSInput → Option String
  addrOf : Bytes → String
  getMerkle : String → Int → MerkleProof
  getRawTx : String → String
  parseTx : String → BJSTx
  getBlock : Int → BJSBlock

/-- `getBlockHeader` (ElectrumApi.ts lines 174–178). -/
def getBlockHeader (env : ApiEnv) (height : Int) : PlainBlockHeader :=
  blockHeaderToPlain (env.getBlock height) height

/-- Resolution of the `heightOrBlockHeader` argument at the top of
`getTransaction` (ElectrumApi.ts lines 123–128): an object is used
directly; a number is resolved through `getBlockHeader` only when
positive. -/
def resolveHeader (env : ApiEnv) (hob : HeightOrHeader) : Option PlainBlockHeader :=
  match hob with
  | .header h => some h
  | .height n => if n > 0 then some (getBlockHeader env n) else none
  | .noArg => none

/-- `getTransaction` (ElectrumApi.ts lines 122–141).  When a block header
is available, the Merkle root computed from the server's proof must equal
the header's `merkleRoot` string, else the call throws; on success the
block fields of the header are attached to the parsed transaction.
Server-side RPC failures and parse failures are outside this model (the
abstract response functions are total). -/
def getTransaction (env : ApiEnv) (hash : String) (hob : HeightOrHeader) :
    Except String PlainTransaction :=
  match resolveHeader env hob with
  | some blockHeader =>
    let transactionMerkleRoot :=
      getTransactionMerkleRoot env.sha hash (env.getMerkle hash blockHeader.blockHeight)
    if blockHeader.merkleRoot = some transactionMerkleRoot then
      .ok (transactionToPlain env.derive env.addrOf (env.parseTx (env.getRawTx hash))
            (some blockHeader))
    else
      .error (merkleErrorMsg hash blockHeader.blockHeight)
  | none =>
    .ok (transactionToPlain env.derive env.addrOf (env.parseTx (env.getRawTx hash)) none)

/-! ## Agent model (`src/electrum-client/Agent.ts`)

The process-wide `BlockStore` and `TransactionStore` collaborators are
modelled as fields of the agent state (lookup functions updated by
`funMapSet`).  Events fired through the `Observable` base class are
collected into a trace list; the RPC calls the agent issues are collected
into a call list. -/

/-- Timeout and interval constants (Agent.ts lines 34–36), in
milliseconds. -/
def HANDSHAKE_TIMEOUT : Nat := 1000 * 4

/-- `PING_TIMEOUT` (Agent.ts line 35), in milliseconds. -/
def PING_TIMEOUT : Nat := 1000 * 10

/-- `CONNECTIVITY_CHECK_INTERVAL` (Agent.ts line 36), in milliseconds. -/
def CONNECTIVITY_CHECK_INTERVAL : Nat := 1000 * 60

/-- The events of the Agent's `Event` enum (Agent.ts lines 18–25),
carrying their payloads. -/
inductive AgentEvent where
  | BLOCK (b : PlainBlockHeader)
  | TRANSACTION_ADDED (tx : PlainTransaction)
  | TRANSACTION_MINED (tx : PlainTransaction) (b : PlainBlockHeader)
  | SYNCING
  | SYNCED
  | CLOSE (reason : String)
deriving DecidableEq, Repr

/-- RPC / proof actions the agent performs while handling notifications,
recorded so that theorems can state that a skipped receipt triggers no
fetch. -/
inductive RpcCall where
  | headerFetch (height : Int)
  | txFetch (hash : String)
  | txProof (hash : String)
deriving DecidableEq, Repr

/-- Point update of a lookup function (models `Store.set(key, value)`). -/
def funMapSet {κ β : Type} [DecidableEq κ] (s : κ → Option β) (k : κ) (v : β) :
    κ → Option β :=
  fun k' => if k' = k then some v else s k'

/-- Lookup in a JavaScript `Map`, modelled as an association list in
insertion order. -/
def jsMapGet {α : Type} (m : List (String × α)) (k : String) : Option α :=
  (m.find? fun p => p.1 = k).map (·.2)

/-- `Map.set`: replace in place if the key is present, else append. -/
def jsMapSet {α : Type} (m : List (String × α)) (k : String) (v : α) :
    List (String × α) :=
  if m.any fun p => p.1 = k then m.map fun p => if p.1 = k then (k, v) else p
  else m ++ [(k, v)]

/-- `new Map(entries)`: later entries overwrite earlier ones. -/
def jsMapOfList {α : Type} (l : List (String × α)) : List (String × α) :=
  l.foldl (fun m p => jsMapSet m p.1 p.2) []

/-- The mutable fields of an `Agent` (Agent.ts lines 43–54) together with
the process-wide `BlockStore` and `TransactionStore` caches it reads and
writes.  `connected` models `connection !== null`; `pingStarted` models
`pingInterval` being set. -/
structure AgentState where
  handshaking : Bool
  syncing : Bool
  synced : Bool
  connected : Bool
  pingStarted : Bool
  blockStore : Int → Option PlainBlockHeader
  txStore : String → Option PlainTransaction
  knownReceipts : List (String × List (String × Receipt))

/-- `close(reason)` (Agent.ts lines 225–233): drops the connection,
clears the sync flags, fires `CLOSE(reason)` unconditionally and clears
the ping interval. -/
def close (st : AgentState) (reason : String) : AgentState × List AgentEvent :=
  ({ st with connected := false, syncing := false, synced := false, pingStarted := false },
    [AgentEvent.CLOSE reason])

/-- The ping retry logic of `ping(failedTries)` (Agent.ts lines 287–299),
abstracted over elapsed time: given the starting `failedTries` counter and
the number of consecutive 10-second timeouts that fire without a pong,
returns the close reason if `close` is invoked within those timeouts.
Each timeout closes when `failedTries > 1` and otherwise re-enters
`ping(failedTries + 1)`. -/
def pingTimeoutsFrom : Nat → Nat → Option String
  | _, 0 => none
  | failedTries, n + 1 =>
    if failedTries > 1 then some "Ping timeout" else pingTimeoutsFrom (failedTries + 1) n

/-- The close reason produced after `timeouts` consecutive unanswered ping
timers, starting from the interval-driven call `ping()` (i.e.
`failedTries = 0`). -/
def pingCloseReason (timeouts : Nat) : Option String := pingTimeoutsFrom 0 timeouts

/-- `onBlock` (Agent.ts lines 308–334).  Returns `none` exactly when the
source would crash dereferencing `prevBlock!` (header at a negative
height with no stored predecessor — unreachable for real headers).
Otherwise returns the new state and the fired events, in order. -/
def onBlock (env : ApiEnv) (st : AgentState) (block : PlainBlockHeader) :
    Option (AgentState × List AgentEvent) :=
  let h := block.blockHeight
  let stored := st.blockStore (h - 1)
  let fetched : Option PlainBlockHeader :=
    match stored with
    | some _ => none
    | none => if h > 0 then some (getBlockHeader env (h - 1)) else none
  let store1 :=
    match fetched with
    | some p => funMapSet st.blockStore p.blockHeight p
    | none => st.blockStore
  let prevBlock :=
    match stored with
    | some p => some p
    | none => fetched
  let accept : Option Bool :=
    match prevBlock with
    | none => if h = 0 then some true else none
    | some p => some (decide (some p.blockHash = block.prevHash))
  accept.map fun acc =>
    let (store2, evs1) :=
      if acc then (funMapSet store1 h block, [AgentEvent.BLOCK block]) else (store1, [])
    if st.syncing then
      ({ st with syncing := false, synced := true, pingStarted := true, blockStore := store2 },
        evs1 ++ [AgentEvent.SYNCED])
    else
      ({ st with blockStore := store2 }, evs1)

/-- A sequence of header notifications processed by `onBlock`,
accumulating the fired events. -/
def runBlocks (env : ApiEnv) (st : AgentState) :
    List PlainBlockHeader → Option (AgentState × List AgentEvent)
  | [] => some (st, [])
  | b :: bs =>
    match onBlock env st b with
    | none => none
    | some (st1, evs1) =>
      match runBlocks env st1 bs with
      | none => none
      | some (st2, evs2) => some (st2, evs1 ++ evs2)

/-- Number of `SYNCED` events in a trace. -/
def countSynced : List AgentEvent → Nat
  | [] => 0
  | AgentEvent.SYNCED :: rest => countSynced rest + 1
  | _ :: rest => countSynced rest

/-! ## Public Agent operations (Agent.ts lines 159–223)

Each method is modelled as a function of the agent state and the RPC
response (an abstract function); the returned `Bool` records whether the
underlying connection was used at all, so that "performs no RPC" is
expressible.  None of these methods mutates agent state in the source. -/

/-- The message of the error thrown by every synced-guarded public method
(Agent.ts, e.g. line 160). -/
def notSyncedMsg : String := "Agent not synced"

/-- `getBalance` (Agent.ts lines 159–163). -/
def agentGetBalance (rpc : String → Balance) (st : AgentState) (address : String) :
    Except String Balance × Bool :=
  if st.synced then (.ok (rpc address), true) else (.error notSyncedMsg, false)

/-- `getTransactionReceipts` (Agent.ts lines 165–169). -/
def agentGetTransactionReceipts (rpc : String → List Receipt) (st : AgentState)
    (address : String) : Except String (List Receipt) × Bool :=
  if st.synced then (.ok (rpc address), true) else (.error notSyncedMsg, false)

/-- `getTransaction` (Agent.ts lines 171–175). -/
def agentGetTransaction (env : ApiEnv) (st : AgentState) (hash : String)
    (block : Option PlainBlockHeader) : Except String PlainTransaction × Bool :=
  if st.synced then
    (getTransaction env hash (match block with | some b => .header b | none => .noArg), true)
  else (.error notSyncedMsg, false)

/-- `getBlockHeader` (Agent.ts lines 177–181). -/
def agentGetBlockHeader (env : ApiEnv) (st : AgentState) (height : Int) :
    Except String PlainBlockHeader × Bool :=
  if st.synced then (.ok (getBlockHeader env height), true) else (.error notSyncedMsg, false)

/-- `estimateFees` (Agent.ts lines 183–188): no synced guard; each
target's `estimatefee` RPC failure is replaced by `-1`. -/
def agentEstimateFees (rpc : Int → Except String Int) (_st : AgentState)
    (targetBlocks : List Int) : List Int :=
  targetBlocks.map fun target =>
    match rpc target with
    | .ok v => v
    | .error _ => -1

/-- `getFeeHistogram` (Agent.ts lines 190–194). -/
def agentGetFeeHistogram (rpc : Unit → List (Int × Int)) (st : AgentState) :
    Except String (List (Int × Int)) × Bool :=
  if st.synced then (.ok (rpc ()), true) else (.error notSyncedMsg, false)

/-- `getMinimumRelayFee` (Agent.ts lines 196–200). -/
def agentGetMinimumRelayFee (rpc : Unit → Int) (st : AgentState) :
    Except String Int × Bool :=
  if st.synced then (.ok (rpc ()), true) else (.error notSyncedMsg, false)

/-- `broadcastTransaction` (ElectrumApi.ts lines 184–189): parse first,
then broadcast; a response different from the parsed hash is the server's
error message (protocol v1.0 legacy) and is thrown verbatim.
`broadcastResp` is the string the server returns. -/
def broadcastTransaction (env : ApiEnv) (broadcastResp : String → String) (rawTx : String) :
    Except String PlainTransaction :=
  let tx := transactionToPlain env.derive env.addrOf (env.parseTx rawTx) none
  let hash := broadcastResp rawTx
  if hash = tx.transactionHash then .ok tx else .error hash

/-- `broadcastTransaction` (Agent.ts lines 202–206). -/
def agentBroadcastTransaction (env : ApiEnv) (broadcastResp : String → String)
    (st : AgentState) (rawTx : String) : Except String PlainTransaction × Bool :=
  if st.synced then (broadcastTransaction env broadcastResp rawTx, true)
  else (.error notSyncedMsg, false)

/-- `subscribe` (Agent.ts lines 208–217): normalizes a single address to a
list and registers a receipts subscription per address. -/
def agentSubscribe (st : AgentState) (addresses : String ⊕ List String) :
    Except String (List String) × Bool :=
  if st.synced then
    (.ok (match addresses with | .inl a => [a] | .inr l => l), true)
  else (.error notSyncedMsg, false)

/-- `Peer.ports` (spec §3; `types.ts` is not included in `src/`). -/
structure PeerPorts where
  tcp : Option Int
  ssl : Option Int
  wss : Option Int
deriving DecidableEq, Repr

/-- Modelled from the spec: `Peer` (spec §3; `types.ts` is not included
in `src/`). -/
structure Peer where
  ip : String
  host : String
  version : String
  pruningLimit : Option Int
  ports : PeerPorts
deriving DecidableEq, Repr

/-- `getPeers` (Agent.ts lines 219–223). -/
def agentGetPeers (rpc : Unit → List Peer) (st : AgentState) :
    Except String (List Peer) × Bool :=
  if st.synced then (.ok (rpc ()), true) else (.error notSyncedMsg, false)

/-! ## Receipt conversion and history (ElectrumApi.ts lines 52–120) -/

/-- A raw `blockchain.scripthash.get_history` entry
(ElectrumApi.ts line 53). -/
structure HistoryEntry where
  height : Int
  tx_hash : String
  fee : Option Int
deriving DecidableEq, Repr

/-- The per-entry mapping of `getReceipts` (ElectrumApi.ts lines 56–60):
`fee` is spread into the receipt only when truthy (present and
non-zero). -/
def receiptOfHistoryEntry (r : HistoryEntry) : Receipt where
  blockHeight := r.height
  transactionHash := r.tx_hash
  fee :=
    match r.fee with
    | some f => if f = 0 then none else some f
    | none => none

/-- `getReceipts` (ElectrumApi.ts lines 52–61), applied to the server's
history response. -/
def getReceipts (entries : List HistoryEntry) : List Receipt :=
  entries.map receiptOfHistoryEntry

/-- `Number.MAX_SAFE_INTEGER`. -/
def MAX_SAFE_INTEGER : Int := 9007199254740991

/-- The sort key of the comparator on ElectrumApi.ts line 77:
`blockHeight || Number.MAX_SAFE_INTEGER` (a falsy height, i.e. `0`, sorts
as `MAX_SAFE_INTEGER`; `-1` sorts as `-1`). -/
def sortKey (r : Receipt) : Int :=
  if r.blockHeight = 0 then MAX_SAFE_INTEGER else r.blockHeight

/-- Stable descending insertion by `sortKey` (JavaScript `Array.sort` is
stable). -/
def insertByKeyDesc (r : Receipt) : List Receipt → List Receipt
  | [] => [r]
  | x :: xs => if sortKey x ≤ sortKey r then r :: x :: xs else x :: insertByKeyDesc r xs

/-- The sort on ElectrumApi.ts line 77: height descending, `0` treated as
`MAX_SAFE_INTEGER`. -/
def sortReceiptsDesc : List Receipt → List Receipt
  | [] => []
  | x :: xs => insertByKeyDesc x (sortReceiptsDesc xs)

/-- JavaScript `Array.findIndex`: index of the first match, `-1` when
there is none. -/
def jsFindIndex {α : Type} (p : α → Bool) (l : List α) : Int :=
  match l.findIdx? p with
  | some i => (i : Int)
  | none => -1

/-- JavaScript `Array.slice(0, stop)` with a possibly negative `stop`
(negative counts from the end, clamped at `0`). -/
def jsSliceTo {α : Type} (l : List α) (stop : Int) : List α :=
  if stop < 0 then l.take (l.length - stop.natAbs) else l.take stop.toNat

/-- The sorted and limit-truncated receipt list of `getHistory`
(ElectrumApi.ts lines 74–82); `limit = none` models the default
`Infinity`. -/
def sortedLimited (history : List Receipt) (limit : Option Nat) : List Receipt :=
  let sorted := sortReceiptsDesc history
  match limit with
  | some n => sorted.take n
  | none => sorted

/-- The predicate of the `findIndex` on ElectrumApi.ts line 86. -/
def unwantedReceipt (sinceBlockHeight : Int) (r : Receipt) : Bool :=
  r.blockHeight > 0 && r.blockHeight < sinceBlockHeight

/-- The receipt list `getHistory` iterates over in its transaction-fetch
loop (ElectrumApi.ts lines 74–94): the server history sorted descending,
truncated to `limit`, and — when `sinceBlockHeight > 0` — cut by
`slice(0, findIndex(unwanted))`. -/
def getHistoryFetchList (history : List Receipt) (sinceBlockHeight : Int)
    (limit : Option Nat) : List Receipt :=
  let limited := sortedLimited history limit
  if sinceBlockHeight > 0 then
    jsSliceTo limited (jsFindIndex (unwantedReceipt sinceBlockHeight) limited)
  else limited

/-! ## `onReceipts` (Agent.ts lines 336–389) -/

/-- Modelled from the spec, §4.5: `proofTransaction` (called on Agent.ts
line 375 but not part of the provided `ElectrumApi.ts`) runs a standalone
Merkle proof of the transaction's inclusion in the given block. -/
def proofTransaction (env : ApiEnv) (hash : String) (blockHeader : PlainBlockHeader) :
    Except String Unit :=
  if blockHeader.merkleRoot =
      some (getTransactionMerkleRoot env.sha hash (env.getMerkle hash blockHeader.blockHeight))
  then .ok ()
  else .error (merkleErrorMsg hash blockHeader.blockHeight)

/-- Accumulator of the `onReceipts` diff loop: the shared stores plus the
events fired and RPC calls issued so far. -/
structure ReceiptsAcc where
  blockStore : Int → Option PlainBlockHeader
  txStore : String → Option PlainTransaction
  events : List AgentEvent
  calls : List RpcCall

/-- The body of one iteration of the `onReceipts` diff loop for a receipt
that is not skipped (Agent.ts lines 354–388).  Header fetches go through
the agent's own `getBlockHeader`, which throws `NotSynced` when the agent
is not synced; that exception aborts the whole loop (it is not caught).
Per-transaction errors are logged and skipped.  The `.then` continuations
are modelled as running in iteration order. -/
def onReceiptsBody (env : ApiEnv) (synced : Bool) (acc : ReceiptsAcc) (receipt : Receipt) :
    Except String ReceiptsAcc :=
  let blockRes : Except String (Option PlainBlockHeader × ReceiptsAcc) :=
    if receipt.blockHeight > 0 then
      match acc.blockStore receipt.blockHeight with
      | some b => .ok (some b, acc)
      | none =>
        if synced then
          let b := getBlockHeader env receipt.blockHeight
          .ok (some b,
            { acc with
              blockStore := funMapSet acc.blockStore b.blockHeight b
              calls := acc.calls ++ [RpcCall.headerFetch receipt.blockHeight] })
        else .error notSyncedMsg
    else .ok (none, acc)
  match blockRes with
  | .error e => .error e
  | .ok (block, acc1) =>
    match acc1.txStore receipt.transactionHash with
    | none =>
      let txCheck := getTransaction env receipt.transactionHash
        (match block with | some b => .header b | none => .noArg)
      let acc2 := { acc1 with calls := acc1.calls ++ [RpcCall.txFetch receipt.transactionHash] }
      match txCheck with
      | .ok tx =>
        .ok { acc2 with
          txStore := funMapSet acc2.txStore tx.transactionHash tx
          events := acc2.events ++
            [match block with
             | some b => AgentEvent.TRANSACTION_MINED tx b
             | none => AgentEvent.TRANSACTION_ADDED tx] }
      | .error _ => .ok acc2
    | some storedTransaction =>
      match block with
      | some b =>
        let acc2 := { acc1 with
          calls := acc1.calls ++ [RpcCall.txProof storedTransaction.transactionHash] }
        match proofTransaction env storedTransaction.transactionHash b with
        | .ok _ =>
          .ok { acc2 with
            events := acc2.events ++ [AgentEvent.TRANSACTION_MINED storedTransaction b] }
        | .error _ => .ok acc2
      | none =>
        .ok { acc1 with
          events := acc1.events ++ [AgentEvent.TRANSACTION_ADDED storedTransaction] }

/-- One iteration of the `onReceipts` diff loop (Agent.ts lines 349–352):
a receipt whose known baseline entry has the same `blockHeight` is skipped
outright. -/
def onReceiptsStep (env : ApiEnv) (synced : Bool) (known : List (String × Receipt))
    (acc : ReceiptsAcc) (receipt : Receipt) : Except String ReceiptsAcc :=
  match jsMapGet known receipt.transactionHash with
  | some knownReceipt =>
    if knownReceipt.blockHeight = receipt.blockHeight then .ok acc
    else onReceiptsBody env synced acc receipt
  | none => onReceiptsBody env synced acc receipt

/-- The `onReceipts` diff loop over a notification's receipt list. -/
def onReceiptsList (env : ApiEnv) (synced : Bool) (known : List (String × Receipt)) :
    ReceiptsAcc → List Receipt → Except String ReceiptsAcc
  | acc, [] => .ok acc
  | acc, r :: rs =>
    match onReceiptsStep env synced known acc r with
    | .error e => .error e
    | .ok acc' => onReceiptsList env synced known acc' rs

/-- Whether a receipt is skipped by the diff loop against the baseline
`known` (Agent.ts lines 350–352). -/
def skippedReceipt (known : List (String × Receipt)) (receipt : Receipt) : Bool :=
  match jsMapGet known receipt.transactionHash with
  | some knownReceipt => knownReceipt.blockHeight = receipt.blockHeight
  | none => false

/-- `onReceipts` (Agent.ts lines 336–389): the first notification for an
address installs the verbatim baseline map and returns with no events and
no RPC calls; subsequent notifications run the diff loop and leave
`knownReceipts` unchanged. -/
def onReceipts (env : ApiEnv) (st : AgentState) (address : String)
    (receipts : List Receipt) : Except String (AgentState × List AgentEvent × List RpcCall) :=
  match jsMapGet st.knownReceipts address with
  | none =>
    .ok ({ st with
            knownReceipts := jsMapSet st.knownReceipts address
              (jsMapOfList (receipts.map fun r => (r.transactionHash, r))) },
          [], [])
  | some known =>
    match onReceiptsList env st.synced known ⟨st.blockStore, st.txStore, [], []⟩ receipts with
    | .error e => .error e
    | .ok acc =>
      .ok ({ st with blockStore := acc.blockStore, txStore := acc.txStore },
            acc.events, acc.calls)

/-! ## Concrete instances used to evaluate the definitions -/

/-- A trivial stand-in digest instantiating the abstract SHA-256. -/
def shaW : Bytes → Bytes := fun b => [b.length % 256]

/-- A concrete parsed transaction. -/
def bjsTxW : BJSTx :=
  { getId := "aa", ins := [], outs := [], version := 1, virtualSize := 100,
    isCoinbase := false, weight := 400 }

/-- A concrete parsed block whose hash is `"prevhash"`. -/
def bjsBlockW : BJSBlock :=
  { getId := "prevhash", timestamp := 7, bits := 0, nonce := 0, version := 1,
    weight := 0, prevHash := none, merkleRoot := none }

/-- A concrete environment of server responses and primitives. -/
def envW : ApiEnv where
  sha := shaW
  derive := fun _ => none
  addrOf := fun _ => ""
  getMerkle := fun _ _ => { block_height := 170, merkle := [], pos := 0 }
  getRawTx := fun _ => "raw"
  parseTx := fun _ => bjsTxW
  getBlock := fun _ => bjsBlockW

/-- A concrete header whose `merkleRoot` matches the root computed from
`envW`'s (empty) Merkle path for the tx hash `"ab"`. -/
def bhW : PlainBlockHeader :=
  { blockHash := "b0", blockHeight := 170, timestamp := 5, bits := 0, nonce := 0,
    version := 1, weight := 0, prevHash := none, merkleRoot := some "ab" }

/-- A concrete synced agent state with empty stores. -/
def stBase : AgentState where
  handshaking := false
  syncing := false
  synced := true
  connected := true
  pingStarted := true
  blockStore := fun _ => none
  txStore := fun _ => none
  knownReceipts := []

/-- A concrete agent state that is not synced. -/
def stNotSynced : AgentState :=
  { stBase with synced := false, pingStarted := false }

/-- A concrete stored genesis header with hash `"aaaa"`. -/
def hdr0W : PlainBlockHeader :=
  { blockHash := "aaaa", blockHeight := 0, timestamp := 0, bits := 0, nonce := 0,
    version := 1, weight := 0, prevHash := none, merkleRoot := none }

/-- A concrete syncing state whose block store holds `hdr0W` at height 0. -/
def stSyncingW : AgentState :=
  { stBase with
    syncing := true
    synced := false
    pingStarted := false
    blockStore := funMapSet (fun _ => none) 0 hdr0W }

/-- A header at height 1 whose `prevHash` does not match `hdr0W`:
`onBlock` drops it as non-consecutive. -/
def blockDropW : PlainBlockHeader :=
  { blockHash := "cccc", blockHeight := 1, timestamp := 1, bits := 0, nonce := 0,
    version := 1, weight := 0, prevHash := some "bbbb", merkleRoot := none }

/-- A header at height 1 whose `prevHash` matches the block fetched by
`envW` (hash `"prevhash"`): `onBlock` accepts it. -/
def blockAccW : PlainBlockHeader :=
  { blockHash := "cccc", blockHeight := 1, timestamp := 1, bits := 0, nonce := 0,
    version := 1, weight := 0, prevHash := some "prevhash", merkleRoot := none }

/-! # Theorems -/

/-- C9: for every history entry returned by the server to `getReceipts`,
the resulting `Receipt` carries `fee` iff the server entry's fee is present
and non-zero (a fee of exactly 0 is omitted), while `blockHeight` and
`transactionHash` are carried over unchanged. -/
theorem c9_getReceipts_fee (entries : List HistoryEntry) (r : HistoryEntry)
    (hr : r ∈ entries) :
    receiptOfHistoryEntry r ∈ getReceipts entries ∧
    (receiptOfHistoryEntry r).blockHeight = r.height ∧
    (receiptOfHistoryEntry r).transactionHash = r.tx_hash ∧
    (∀ f : Int, (receiptOfHistoryEntry r).fee = some f ↔ r.fee = some f ∧ f ≠ 0) := by
  refine ⟨List.mem_map_of_mem _ hr, rfl, rfl, ?_⟩
  intro f
  cases hf : r.fee with
  | none => simp [receiptOfHistoryEntry, hf]
  | some g =>
    by_cases hg : g = 0
    · subst hg
      simp [receiptOfHistoryEntry, hf]
      rintro rfl
      simp
    · simp only [receiptOfHistoryEntry, hf, if_neg hg]
      constructor
      · rintro h
        exact ⟨h, by rintro rfl; exact hg (Option.some_injective _ h.symm ▸ rfl)⟩
      · rintro ⟨h, _⟩
        exact h

/-- Witness for C9 at a concrete entry with a zero fee. -/
theorem c9_getReceipts_fee_witness :
    (receiptOfHistoryEntry { height := 3, tx_hash := "t", fee := some 0 }).fee = some 5 ↔
      (some 0 = some (5 : Int) ∧ (5 : Int) ≠ 0) :=
  (c9_getReceipts_fee [{ height := 3, tx_hash := "t", fee := some 0 }]
    { height := 3, tx_hash := "t", fee := some 0 } (by simp)).2.2.2 5

/-- C7: `broadcastTransaction` parses the raw transaction first to get the
expected hash (the parsed transaction's id); if the server's response
string equals it the parsed `PlainTransaction` (without block fields) is
returned, otherwise the call fails with exactly the server's returned
string as the error message. -/
theorem c7_broadcastTransaction (env : ApiEnv) (resp : String → String) (rawTx : String) :
    (transactionToPlain env.derive env.addrOf (env.parseTx rawTx) none).transactionHash =
        (env.parseTx rawTx).getId ∧
    (resp rawTx =
        (transactionToPlain env.derive env.addrOf (env.parseTx rawTx) none).transactionHash →
      broadcastTransaction env resp rawTx =
        .ok (transactionToPlain env.derive env.addrOf (env.parseTx rawTx) none)) ∧
    (resp rawTx ≠
        (transactionToPlain env.derive env.addrOf (env.parseTx rawTx) none).transactionHash →
      broadcastTransaction env resp rawTx = .error (resp rawTx)) ∧
    (∀ e, broadcastTransaction env resp rawTx = .error e → e = resp rawTx) ∧
    (∀ tx, broadcastTransaction env resp rawTx = .ok tx →
      tx = transactionToPlain env.derive env.addrOf (env.parseTx rawTx) none ∧
      tx.blockHash = none ∧ tx.blockHeight = none ∧ tx.timestamp = none) := by
  refine ⟨rfl, ?_, ?_, ?_, ?_⟩
  · intro h
    simp [broadcastTransaction, h]
  · intro h
    simp [broadcastTransaction, h]
  · intro e he
    by_cases h : resp rawTx =
        (transactionToPlain env.derive env.addrOf (env.parseTx rawTx) none).transactionHash
    · simp [broadcastTransaction, h] at he
    · simp only [broadcastTransaction, if_neg h] at he
      simpa using he.symm
  · intro tx htx
    by_cases h : resp rawTx =
        (transactionToPlain env.derive env.addrOf (env.parseTx rawTx) none).transactionHash
    · simp only [broadcastTransaction, if_pos h] at htx
      obtain rfl : transactionToPlain env.derive env.addrOf (env.parseTx rawTx) none = tx := by
        simpa using htx
      exact ⟨rfl, rfl, rfl, rfl⟩
    · simp [broadcastTransaction, if_neg h] at htx

/-- Witness for C7: a server response different from the parsed hash is
thrown verbatim. -/
theorem c7_broadcastTransaction_witness :
    broadcastTransaction envW (fun _ => "not-final") "r" = .error "not-final" :=
  (c7_broadcastTransaction envW (fun _ => "not-final") "r").2.2.1 (by decide)

/-- C4 counterexample: a second call to `close` fires a further `CLOSE`
event (with the new reason), so `close` is not idempotent with respect to
event emission and `CLOSE` is not emitted at most once. -/
theorem c4_close_counterexample :
    (close (close stBase "a").1 "b").2 = [AgentEvent.CLOSE "b"] ∧
    (close (close stBase "a").1 "b").2 ≠ ([] : List AgentEvent) :=
  ⟨rfl, by decide⟩

/-- C4 amended: a second call to `close` leaves the agent state unchanged
(the sync/connection flags are already cleared), but every call to `close`
— including a repeated one — fires one `CLOSE` event with its reason; the
first close does clear `synced` and drop the connection. -/
theorem c4_close_amended (st : AgentState) (r1 r2 : String) :
    (close (close st r1).1 r2).1 = (close st r1).1 ∧
    (close st r1).2 = [AgentEvent.CLOSE r1] ∧
    (close (close st r1).1 r2).2 = [AgentEvent.CLOSE r2] ∧
    ((close st r1).1).synced = false ∧
    ((close st r1).1).connected = false :=
  ⟨rfl, rfl, rfl, rfl, rfl⟩

/-- C8 counterexample: after two consecutive unanswered ping timeouts the
agent has not closed; only the third consecutive timeout closes it. -/
theorem c8_ping_counterexample :
    pingCloseReason 2 = none ∧ pingCloseReason 3 = some "Ping timeout" := by
  decide

/-- C8 amended: once synced the agent pings every 60 seconds with a
10-second timeout, but an unanswered ping is retried twice, and the agent
closes with reason "Ping timeout" on the third consecutive timeout
(`failedTries > 1` first holds on the third timer expiry). -/
theorem c8_ping_amended (n : Nat) :
    CONNECTIVITY_CHECK_INTERVAL = 60 * 1000 ∧
    PING_TIMEOUT = 10 * 1000 ∧
    (pingCloseReason n = some "Ping timeout" ↔ 3 ≤ n) ∧
    (pingCloseReason n = none ↔ n < 3) := by
  refine ⟨rfl, rfl, ?_, ?_⟩ <;>
  · match n with
    | 0 => simp [pingCloseReason, pingTimeoutsFrom]
    | 1 => simp [pingCloseReason, pingTimeoutsFrom]
    | 2 => simp [pingCloseReason, pingTimeoutsFrom]
    | (k + 3) => simp [pingCloseReason, pingTimeoutsFrom]

/-- C5: every synced-guarded public operation called while `synced` is
false fails with the `NotSynced` error ("Agent not synced") and performs
no RPC (the source methods throw before touching the connection and never
mutate agent state); `close` sets `synced` to false; `estimateFees` is
exempt: it ignores the synced flag entirely and substitutes `-1` for each
target whose RPC fails. -/
theorem c5_public_ops_require_synced
    (st : AgentState) (hs : st.synced = false)
    (rpcBal : String → Balance) (rpcRec : String → List Receipt) (env : ApiEnv)
    (bresp : String → String) (rpcHist : Unit → List (Int × Int)) (rpcRelay : Unit → Int)
    (rpcPeers : Unit → List Peer) (rpcFee : Int → Except String Int)
    (address hash rawTx : String) (block : Option PlainBlockHeader) (height : Int)
    (addresses : String ⊕ List String) (targets : List Int) :
    agentGetBalance rpcBal st address = (.error notSyncedMsg, false) ∧
    agentGetTransactionReceipts rpcRec st address = (.error notSyncedMsg, false) ∧
    agentGetTransaction env st hash block = (.error notSyncedMsg, false) ∧
    agentGetBlockHeader env st height = (.error notSyncedMsg, false) ∧
    agentGetFeeHistogram rpcHist st = (.error notSyncedMsg, false) ∧
    agentGetMinimumRelayFee rpcRelay st = (.error notSyncedMsg, false) ∧
    agentBroadcastTransaction env bresp st rawTx = (.error notSyncedMsg, false) ∧
    agentSubscribe st addresses = (.error notSyncedMsg, false) ∧
    agentGetPeers rpcPeers st = (.error notSyncedMsg, false) ∧
    notSyncedMsg = "Agent not synced" ∧
    (∀ reason, ((close st reason).1).synced = false) ∧
    (∀ st' : AgentState, agentEstimateFees rpcFee st targets = agentEstimateFees rpcFee st' targets) ∧
    (∀ i : Nat, (agentEstimateFees rpcFee st targets)[i]? =
      (targets[i]?).map fun t =>
        match rpcFee t with
        | .ok v => v
        | .error _ => -1) := by
  refine ⟨?_, ?_, ?_, ?_, ?_, ?_, ?_, ?_, ?_, rfl, fun _ => rfl, fun _ => rfl, ?_⟩
  · simp [agentGetBalance, hs]
  · simp [agentGetTransactionReceipts, hs]
  · simp [agentGetTransaction, hs]
  · simp [agentGetBlockHeader, hs]
  · simp [agentGetFeeHistogram, hs]
  · simp [agentGetMinimumRelayFee, hs]
  · simp [agentBroadcastTransaction, hs]
  · simp [agentSubscribe, hs]
  · simp [agentGetPeers, hs]
  · intro i
    simp [agentEstimateFees, List.getElem?_map]

/-- Witness for C5 at a concrete unsynced state. -/
theorem c5_public_ops_require_synced_witness :
    agentGetBalance (fun _ => { confirmed := 0, unconfirmed := 0 }) stNotSynced "x" =
      (.error notSyncedMsg, false) :=
  (c5_public_ops_require_synced stNotSynced rfl
    (fun _ => { confirmed := 0, unconfirmed := 0 }) (fun _ => []) envW
    (fun _ => "") (fun _ => []) (fun _ => 0) (fun _ => []) (fun _ => .ok 1)
    "x" "h" "raw" none 0 (.inl "a") []).1

/-- C10: in `getHistory` with `sinceBlockHeight > 0`, when the sorted and
limit-truncated receipt list contains no receipt with
`0 < blockHeight < sinceBlockHeight`, `findIndex` returns `-1` and
`slice(0, -1)` drops the final (oldest) element from the
transaction-fetch list anyway; only when an unwanted receipt exists does
the cut happen at its index. -/
theorem c10_getHistory_since_cut (history : List Receipt) (sinceBlockHeight : Int)
    (limit : Option Nat) (hsince : 0 < sinceBlockHeight) :
    ((∀ r ∈ sortedLimited history limit, unwantedReceipt sinceBlockHeight r = false) →
      getHistoryFetchList history sinceBlockHeight limit =
        (sortedLimited history limit).dropLast) ∧
    (∀ i : Nat,
      (sortedLimited history limit).findIdx? (unwantedReceipt sinceBlockHeight) = some i →
      getHistoryFetchList history sinceBlockHeight limit =
        (sortedLimited history limit).take i) := by
  constructor
  · intro hall
    have hnone : (sortedLimited history limit).findIdx? (unwantedReceipt sinceBlockHeight) =
        none := List.findIdx?_eq_none_iff.mpr hall
    unfold getHistoryFetchList
    rw [if_pos hsince]
    simp only [jsFindIndex, hnone]
    simp [jsSliceTo, List.dropLast_eq_take]
  · intro i hi
    unfold getHistoryFetchList
    rw [if_pos hsince]
    simp only [jsFindIndex, hi]
    simp [jsSliceTo]

/-- Witness for C10: two confirmed receipts at heights 10 and 7 with
`sinceBlockHeight = 5` — neither is unwanted, yet the oldest is cut. -/
theorem c10_getHistory_since_cut_witness :
    getHistoryFetchList
        [{ blockHeight := 7, transactionHash := "b", fee := none },
         { blockHeight := 10, transactionHash := "a", fee := none }] 5 none =
      (sortedLimited
        [{ blockHeight := 7, transactionHash := "b", fee := none },
         { blockHeight := 10, transactionHash := "a", fee := none }] none).dropLast :=
  (c10_getHistory_since_cut
    [{ blockHeight := 7, transactionHash := "b", fee := none },
     { blockHeight := 10, transactionHash := "a", fee := none }] 5 none
    (by decide)).1 (by decide)

/-- The loop of `getTransactionMerkleRoot` equals the spec's §4.4.1
folding algorithm. -/
theorem merkleFoldl_eq_specLoop (sha : Bytes → Bytes) (l : List String) (i : Nat)
    (node : Bytes) :
    (l.foldl (merkleFoldStep sha) (i, node)).2 = specMerkleRootLoop sha l i node := by
  induction l generalizing i node with
  | nil => rfl
  | cons p rest ih =>
    by_cases hp : i % 2 = 0 <;>
      simp [List.foldl_cons, merkleFoldStep, specMerkleRootLoop, hp, ih]

/-- The Merkle root computed by the source equals the spec's §4.4.1
algorithm on the same server response. -/
theorem getTransactionMerkleRoot_eq_spec (sha : Bytes → Bytes) (hash : String)
    (proof : MerkleProof) :
    getTransactionMerkleRoot sha hash proof = specMerkleRoot sha hash proof := by
  simp only [getTransactionMerkleRoot, specMerkleRoot, merkleFoldl_eq_specLoop]

/-- When the optional argument resolves to a header, `getTransaction`
reduces to the Merkle check followed by the conversion. -/
theorem getTransaction_of_resolved (env : ApiEnv) (hash : String) (hob : HeightOrHeader)
    (bh : PlainBlockHeader) (hres : resolveHeader env hob = some bh) :
    getTransaction env hash hob =
      if bh.merkleRoot =
          some (getTransactionMerkleRoot env.sha hash (env.getMerkle hash bh.blockHeight)) then
        .ok (transactionToPlain env.derive env.addrOf (env.parseTx (env.getRawTx hash)) (some bh))
      else .error (merkleErrorMsg hash bh.blockHeight) := by
  unfold getTransaction
  rw [hres]

/-- C1: when `getTransaction` is given a block header (directly or as a
positive height resolved through `getBlockHeader`), the Merkle root is
computed from the `blockchain.transaction.get_merkle` response by the
spec §4.4.1 folding algorithm, the call succeeds iff that root equals the
header's `merkleRoot`, a success attaches exactly the header's block
fields, and a mismatch fails with the Merkle-proof error (so no
transaction — in particular none with block fields — is returned). -/
theorem c1_getTransaction_merkle (env : ApiEnv) (hash : String) (hob : HeightOrHeader)
    (bh : PlainBlockHeader) (hres : resolveHeader env hob = some bh) :
    getTransactionMerkleRoot env.sha hash (env.getMerkle hash bh.blockHeight) =
      specMerkleRoot env.sha hash (env.getMerkle hash bh.blockHeight) ∧
    ((∃ tx, getTransaction env hash hob = .ok tx) ↔
      bh.merkleRoot = some (specMerkleRoot env.sha hash (env.getMerkle hash bh.blockHeight))) ∧
    (∀ tx, getTransaction env hash hob = .ok tx →
      tx.blockHash = some bh.blockHash ∧ tx.blockHeight = some bh.blockHeight ∧
      tx.timestamp = some bh.timestamp) ∧
    (bh.merkleRoot ≠ some (specMerkleRoot env.sha hash (env.getMerkle hash bh.blockHeight)) →
      getTransaction env hash hob = .error (merkleErrorMsg hash bh.blockHeight)) := by
  have hspec := getTransactionMerkleRoot_eq_spec env.sha hash (env.getMerkle hash bh.blockHeight)
  have hred := getTransaction_of_resolved env hash hob bh hres
  refine ⟨hspec, ?_, ?_, ?_⟩
  · rw [← hspec, hred]
    by_cases hm : bh.merkleRoot =
        some (getTransactionMerkleRoot env.sha hash (env.getMerkle hash bh.blockHeight))
    · simp [hm]
    · simp [hm]
  · intro tx htx
    rw [hred] at htx
    by_cases hm : bh.merkleRoot =
        some (getTransactionMerkleRoot env.sha hash (env.getMerkle hash bh.blockHeight))
    · rw [if_pos hm] at htx
      obtain rfl : transactionToPlain env.derive env.addrOf (env.parseTx (env.getRawTx hash))
          (some bh) = tx := by simpa using htx
      exact ⟨rfl, rfl, rfl⟩
    · rw [if_neg hm] at htx
      exact absurd htx (by simp)
  · intro hm
    rw [← hspec] at hm
    rw [hred, if_neg hm]

/-- A header whose `merkleRoot` does not match the root computed from
`envW`'s Merkle response for the tx hash `"ab"`. -/
theorem c1_getTransaction_merkle_witness :
    getTransaction envW "ab" (.header { bhW with merkleRoot := some "zz" }) =
      .error (merkleErrorMsg "ab" 170) :=
  (c1_getTransaction_merkle envW "ab" (.header { bhW with merkleRoot := some "zz" })
    { bhW with merkleRoot := some "zz" } rfl).2.2.2 (by decide)

/-- Characterization of `onBlock` when the predecessor is already in the
store. -/
theorem onBlock_with_prev_stored (env : ApiEnv) (st : AgentState) (block : PlainBlockHeader)
    (p : PlainBlockHeader) (hst : st.blockStore (block.blockHeight - 1) = some p) :
    onBlock env st block = some
      ({ st with
          syncing := false
          synced := st.syncing || st.synced
          pingStarted := st.syncing || st.pingStarted
          blockStore :=
            if some p.blockHash = block.prevHash then
              funMapSet st.blockStore block.blockHeight block
            else st.blockStore },
        (if some p.blockHash = block.prevHash then [AgentEvent.BLOCK block] else []) ++
          (if st.syncing then [AgentEvent.SYNCED] else [])) := by
  simp only [onBlock]
  rw [hst]
  by_cases hacc : some p.blockHash = block.prevHash <;>
    by_cases hsync : st.syncing <;>
      simp [hacc, hsync]

/-- Characterization of `onBlock` when the predecessor is absent and
fetched through `getBlockHeader` (which stamps its height, so it is
cached at `blockHeight - 1`). -/
theorem onBlock_with_prev_fetched (env : ApiEnv) (st : AgentState) (block : PlainBlockHeader)
    (hst : st.blockStore (block.blockHeight - 1) = none) (hpos : 0 < block.blockHeight) :
    onBlock env st block = some
      ({ st with
          syncing := false
          synced := st.syncing || st.synced
          pingStarted := st.syncing || st.pingStarted
          blockStore :=
            if some (getBlockHeader env (block.blockHeight - 1)).blockHash = block.prevHash then
              funMapSet
                (funMapSet st.blockStore (block.blockHeight - 1)
                  (getBlockHeader env (block.blockHeight - 1)))
                block.blockHeight block
            else
              funMapSet st.blockStore (block.blockHeight - 1)
                (getBlockHeader env (block.blockHeight - 1)) },
        (if some (getBlockHeader env (block.blockHeight - 1)).blockHash = block.prevHash then
            [AgentEvent.BLOCK block]
          else []) ++
          (if st.syncing then [AgentEvent.SYNCED] else [])) := by
  have hkey : (getBlockHeader env (block.blockHeight - 1)).blockHeight =
      block.blockHeight - 1 := rfl
  simp only [onBlock]
  rw [hst, if_pos hpos]
  by_cases hacc : some (getBlockHeader env (block.blockHeight - 1)).blockHash = block.prevHash <;>
    by_cases hsync : st.syncing <;>
      simp [hacc, hsync, hkey]

/-- C2: a header at height 0 with no stored entry at height `-1` is
accepted without a predecessor; a header at height `h > 0` is checked
against the predecessor `p` at `h - 1` (taken from the store, or fetched
and cached if absent — caching is visible as `store'[h-1] = p`); it is
stored and `BLOCK` is emitted iff `p.blockHash` equals the header's
`prevHash`, and a non-matching header is dropped without being stored, so
an accepted block at `h > 0` satisfies
`BlockStore[h-1].blockHash = BlockStore[h].prevHash`. -/
theorem c2_onBlock_chain (env : ApiEnv) (st : AgentState) (block : PlainBlockHeader) :
    (block.blockHeight = 0 → st.blockStore (block.blockHeight - 1) = none →
      ∃ st' evs, onBlock env st block = some (st', evs) ∧
        st'.blockStore block.blockHeight = some block ∧
        AgentEvent.BLOCK block ∈ evs) ∧
    (∀ p : PlainBlockHeader, 0 < block.blockHeight →
      (st.blockStore (block.blockHeight - 1) = some p ∨
        (st.blockStore (block.blockHeight - 1) = none ∧
          p = getBlockHeader env (block.blockHeight - 1))) →
      ∃ st' evs, onBlock env st block = some (st', evs) ∧
        st'.blockStore (block.blockHeight - 1) = some p ∧
        (some p.blockHash = block.prevHash →
          st'.blockStore block.blockHeight = some block ∧
          AgentEvent.BLOCK block ∈ evs ∧
          ∃ q, st'.blockStore (block.blockHeight - 1) = some q ∧
            some q.blockHash = block.prevHash) ∧
        (some p.blockHash ≠ block.prevHash →
          st'.blockStore block.blockHeight = st.blockStore block.blockHeight ∧
          ∀ b, AgentEvent.BLOCK b ∉ evs)) := by
  have hne : block.blockHeight - 1 ≠ block.blockHeight := by omega
  have hne2 : block.blockHeight ≠ block.blockHeight - 1 := by omega
  constructor
  · intro h0 hnone
    simp only [onBlock]
    rw [hnone, h0]
    by_cases hsync : st.syncing <;>
      simp [hsync, funMapSet] <;>
        exact ⟨_, _, ⟨rfl, rfl⟩, by simp [funMapSet], by simp⟩
  · intro p hpos hp
    rcases hp with hst | ⟨hst, rfl⟩
    · rw [onBlock_with_prev_stored env st block p hst]
      refine ⟨_, _, rfl, ?_, ?_, ?_⟩
      · by_cases hacc : some p.blockHash = block.prevHash <;>
          simp [hacc, funMapSet, hne, hst]
      · intro hacc
        refine ⟨by simp [hacc, funMapSet], by simp [hacc], p, ?_, hacc⟩
        simp [hacc, funMapSet, hne, hst]
      · intro hacc
        constructor
        · simp [hacc]
        · intro b
          by_cases hsync : st.syncing <;> simp [hacc, hsync]
    · rw [onBlock_with_prev_fetched env st block hst hpos]
      refine ⟨_, _, rfl, ?_, ?_, ?_⟩
      · by_cases hacc : some (getBlockHeader env (block.blockHeight - 1)).blockHash =
            block.prevHash <;>
          simp [hacc, funMapSet, hne]
      · intro hacc
        refine ⟨by simp [hacc, funMapSet], by simp [hacc],
          getBlockHeader env (block.blockHeight - 1), ?_, hacc⟩
        simp [hacc, funMapSet, hne]
      · intro hacc
        constructor
        · simp [hacc, funMapSet, hne2]
        · intro b
          by_cases hsync : st.syncing <;> simp [hacc, hsync]

/-- Witness for C2: a concrete accepted block at height 1 whose
predecessor is fetched from `envW`. -/
theorem c2_onBlock_chain_witness :
    ∃ st' evs, onBlock envW stBase blockAccW = some (st', evs) ∧
      st'.blockStore (blockAccW.blockHeight - 1) =
        some (getBlockHeader envW (blockAccW.blockHeight - 1)) ∧
      (some (getBlockHeader envW (blockAccW.blockHeight - 1)).blockHash = blockAccW.prevHash →
        st'.blockStore blockAccW.blockHeight = some blockAccW ∧
        AgentEvent.BLOCK blockAccW ∈ evs ∧
        ∃ q, st'.blockStore (blockAccW.blockHeight - 1) = some q ∧
          some q.blockHash = blockAccW.prevHash) ∧
      (some (getBlockHeader envW (blockAccW.blockHeight - 1)).blockHash ≠ blockAccW.prevHash →
        st'.blockStore blockAccW.blockHeight = stBase.blockStore blockAccW.blockHeight ∧
        ∀ b, AgentEvent.BLOCK b ∉ evs) :=
  (c2_onBlock_chain envW stBase blockAccW).2
    (getBlockHeader envW (blockAccW.blockHeight - 1)) (by decide) (Or.inr ⟨rfl, rfl⟩)

/-- C3 counterexample: while `syncing`, a non-consecutive header that is
dropped (no `BLOCK` event) still flips the agent to `synced` and fires
`SYNCED` — the transition does not wait for an accepted block. -/
theorem c3_synced_on_dropped_block_counterexample :
    (onBlock envW stSyncingW blockDropW).map (fun r => (r.1.synced, r.1.syncing, r.2)) =
      some (true, false, [AgentEvent.SYNCED]) := by
  rfl

/-- Number of `SYNCED` events in the concatenation of two traces. -/
theorem countSynced_append (a b : List AgentEvent) :
    countSynced (a ++ b) = countSynced a + countSynced b := by
  induction a with
  | nil => simp [countSynced]
  | cons x xs ih =>
    cases x <;> (simp [countSynced, ih]; try omega)

/-- Any successfully processed header clears `syncing`, fires `SYNCED`
iff the agent was syncing, and sets `synced` and the ping timer exactly
then. -/
theorem onBlock_syncing_step (env : ApiEnv) (st : AgentState) (block : PlainBlockHeader)
    (st' : AgentState) (evs : List AgentEvent)
    (h : onBlock env st block = some (st', evs)) :
    st'.syncing = false ∧
    countSynced evs = (if st.syncing then 1 else 0) ∧
    (AgentEvent.SYNCED ∈ evs ↔ st.syncing = true) ∧
    (st.syncing = true → st'.synced = true ∧ st'.pingStarted = true) ∧
    (st.syncing = false → st'.synced = st.synced ∧ st'.pingStarted = st.pingStarted) := by
  simp only [onBlock] at h
  rw [Option.map_eq_some'] at h
  obtain ⟨acc, -, hf⟩ := h
  by_cases hsync : st.syncing <;>
    cases acc <;>
      simp only [hsync, if_true, if_false, Bool.false_eq_true, ite_true, ite_false] at hf <;>
        obtain ⟨rfl, rfl⟩ := Prod.mk.injEq .. ▸ hf <;>
          simp [hsync, countSynced, countSynced_append]

/-- Along any run of `onBlock` steps, once `syncing` is false it stays
false and no further `SYNCED` is fired. -/
theorem runBlocks_countSynced (env : ApiEnv) (blocks : List PlainBlockHeader) :
    ∀ st st' evs, runBlocks env st blocks = some (st', evs) →
      countSynced evs ≤ (if st.syncing then 1 else 0) ∧
      (st.syncing = false → st'.syncing = false) := by
  induction blocks with
  | nil =>
    intro st st' evs h
    obtain ⟨rfl, rfl⟩ : st = st' ∧ [] = evs := by
      simpa [runBlocks] using h
    simp [countSynced]
  | cons b bs ih =>
    intro st st' evs h
    unfold runBlocks at h
    cases h1 : onBlock env st b with
    | none => rw [h1] at h; exact absurd h (by simp)
    | some r =>
      obtain ⟨st1, evs1⟩ := r
      rw [h1] at h
      dsimp only at h
      cases h2 : runBlocks env st1 bs with
      | none => rw [h2] at h; exact absurd h (by simp)
      | some r2 =>
        obtain ⟨st2, evs2⟩ := r2
        rw [h2] at h
        obtain ⟨rfl, rfl⟩ : st2 = st' ∧ evs1 ++ evs2 = evs := by
          simpa using h
        obtain ⟨hsync1, hcount1, -, -, -⟩ := onBlock_syncing_step env st b st1 evs1 h1
        obtain ⟨hcount2, hsync2⟩ := ih st1 st2 (evs2) h2
        rw [countSynced_append]
        constructor
        · rw [hsync1] at hcount2
          simp only [if_false, Bool.false_eq_true, ite_false] at hcount2
          by_cases hs : st.syncing <;> simp [hs] at hcount1 ⊢ <;> omega
        · intro _
          exact hsync2 hsync1

/-- C3 amended: the SYNCING → SYNCED transition (with the `SYNCED` event
and ping-timer start) happens on the first header processed by `onBlock`
while syncing, whether that header is accepted or dropped as
non-consecutive; across any run of headers, `SYNCED` is emitted at most
once. -/
theorem c3_synced_transition (env : ApiEnv) (st : AgentState) (block : PlainBlockHeader) :
    (∀ st' evs, onBlock env st block = some (st', evs) →
      (AgentEvent.SYNCED ∈ evs ↔ st.syncing = true) ∧
      st'.syncing = false ∧
      (st.syncing = true → st'.synced = true ∧ st'.pingStarted = true) ∧
      (st.syncing = false → st'.synced = st.synced)) ∧
    (∀ blocks st'' evs'', runBlocks env st blocks = some (st'', evs'') →
      countSynced evs'' ≤ 1) := by
  constructor
  · intro st' evs h
    obtain ⟨h1, -, h3, h4, h5⟩ := onBlock_syncing_step env st block st' evs h
    exact ⟨h3, h1, h4, fun hs => (h5 hs).1⟩
  · intro blocks st'' evs'' h
    have := (runBlocks_countSynced env blocks st st'' evs'' h).1
    split at this <;> omega

/-- Witness for C3 (amended): the dropped-header counterexample state
satisfies the single-step characterization. -/
theorem c3_synced_transition_witness :
    (AgentEvent.SYNCED ∈ [AgentEvent.SYNCED] ↔ stSyncingW.syncing = true) :=
  (((c3_synced_transition envW stSyncingW blockDropW).1)
    { stSyncingW with
        syncing := false
        synced := true
        pingStarted := true
        blockStore := funMapSet (fun _ => none) 0 hdr0W }
    [AgentEvent.SYNCED] (by rfl)).1

/-- Looking up the key just set in a JavaScript map yields the value. -/
theorem jsMapGet_jsMapSet_self {α : Type} (m : List (String × α)) (k : String) (v : α) :
    jsMapGet (jsMapSet m k v) k = some v := by
  induction m with
  | nil => simp [jsMapGet, jsMapSet]
  | cons x xs ih =>
    by_cases hx : x.1 = k
    · simp [jsMapSet, jsMapGet, hx]
    · have hset : jsMapSet (x :: xs) k v = x :: jsMapSet xs k v := by
        by_cases hxs : xs.any fun p => p.1 = k <;>
          simp [jsMapSet, hx, hxs]
      rw [hset]
      simpa [jsMapGet, List.find?_cons, hx] using ih

/-- A receipt skipped by the baseline check leaves the diff-loop
accumulator untouched. -/
theorem onReceiptsStep_skipped (env : ApiEnv) (synced : Bool)
    (known : List (String × Receipt)) (acc : ReceiptsAcc) (receipt : Receipt)
    (h : skippedReceipt known receipt = true) :
    onReceiptsStep env synced known acc receipt = .ok acc := by
  unfold skippedReceipt at h
  unfold onReceiptsStep
  cases hk : jsMapGet known receipt.transactionHash with
  | none => rw [hk] at h; simp at h
  | some kr =>
    rw [hk] at h
    simp only [decide_eq_true_eq] at h
    simp [h]

/-- A receipt not skipped by the baseline check is processed by the loop
body. -/
theorem onReceiptsStep_not_skipped (env : ApiEnv) (synced : Bool)
    (known : List (String × Receipt)) (acc : ReceiptsAcc) (receipt : Receipt)
    (h : skippedReceipt known receipt = false) :
    onReceiptsStep env synced known acc receipt = onReceiptsBody env synced acc receipt := by
  unfold skippedReceipt at h
  unfold onReceiptsStep
  cases hk : jsMapGet known receipt.transactionHash with
  | none => rfl
  | some kr =>
    rw [hk] at h
    simp only [decide_eq_false_iff_not] at h
    simp [h]

/-- The diff loop ignores skipped receipts entirely: running it on a
notification equals running it on the sublist of non-skipped receipts. -/
theorem onReceiptsList_filter_skipped (env : ApiEnv) (synced : Bool)
    (known : List (String × Receipt)) (receipts : List Receipt) :
    ∀ acc, onReceiptsList env synced known acc receipts =
      onReceiptsList env synced known acc
        (receipts.filter fun r => !(skippedReceipt known r)) := by
  induction receipts with
  | nil => intro acc; rfl
  | cons r rs ih =>
    intro acc
    by_cases hr : skippedReceipt known r
    · rw [List.filter_cons_of_neg (by simp [hr])]
      have hstep := onReceiptsStep_skipped env synced known acc r hr
      calc onReceiptsList env synced known acc (r :: rs)
          = onReceiptsList env synced known acc rs := by
            simp only [onReceiptsList, hstep]
        _ = _ := ih acc
    · rw [List.filter_cons_of_pos (by simp [hr])]
      simp only [onReceiptsList]
      cases hstep : onReceiptsStep env synced known acc r with
      | error e => rfl
      | ok acc' => exact ih acc'

/-- C6: the first receipts notification for a subscribed address is
stored verbatim as the baseline (keyed by transaction hash) with no
events and no RPC calls — `knownReceipts[address]` exists exactly from
then on and later notifications never change it — and in every subsequent
notification a receipt whose `blockHeight` equals the baseline receipt's
`blockHeight` for the same `transactionHash` is skipped: the diff loop
behaves as if it were absent (no fetch, no event). -/
theorem c6_onReceipts_baseline_and_skip (env : ApiEnv) (st : AgentState) (address : String)
    (receipts : List Receipt) :
    (jsMapGet st.knownReceipts address = none →
      onReceipts env st address receipts =
        .ok ({ st with
                knownReceipts := jsMapSet st.knownReceipts address
                  (jsMapOfList (receipts.map fun r => (r.transactionHash, r))) },
              [], []) ∧
      (∀ st' evs calls, onReceipts env st address receipts = .ok (st', evs, calls) →
        jsMapGet st'.knownReceipts address =
          some (jsMapOfList (receipts.map fun r => (r.transactionHash, r))) ∧
        evs = [] ∧ calls = [])) ∧
    (∀ known, jsMapGet st.knownReceipts address = some known →
      (∀ st' evs calls, onReceipts env st address receipts = .ok (st', evs, calls) →
        st'.knownReceipts = st.knownReceipts) ∧
      onReceipts env st address receipts =
        onReceipts env st address (receipts.filter fun r => !(skippedReceipt known r))) := by
  constructor
  · intro hfirst
    have hred : onReceipts env st address receipts =
        .ok ({ st with
                knownReceipts := jsMapSet st.knownReceipts address
                  (jsMapOfList (receipts.map fun r => (r.transactionHash, r))) },
              [], []) := by
      unfold onReceipts
      rw [hfirst]
    refine ⟨hred, ?_⟩
    intro st' evs calls h
    rw [hred] at h
    obtain ⟨rfl, rfl, rfl⟩ :
        ({ st with
            knownReceipts := jsMapSet st.knownReceipts address
              (jsMapOfList (receipts.map fun r => (r.transactionHash, r))) } = st') ∧
        ([] : List AgentEvent) = evs ∧ ([] : List RpcCall) = calls := by
      simpa using h
    exact ⟨jsMapGet_jsMapSet_self _ _ _, rfl, rfl⟩
  · intro known hknown
    constructor
    · intro st' evs calls h
      unfold onReceipts at h
      rw [hknown] at h
      dsimp only at h
      cases hl : onReceiptsList env st.synced known
          ⟨st.blockStore, st.txStore, [], []⟩ receipts with
      | error e => rw [hl] at h; exact absurd h (by simp)
      | ok acc =>
        rw [hl] at h
        obtain ⟨rfl, -, -⟩ :
            ({ st with blockStore := acc.blockStore, txStore := acc.txStore } = st') ∧
            acc.events = evs ∧ acc.calls = calls := by
          simpa using h
        rfl
    · unfold onReceipts
      rw [hknown]
      dsimp only
      rw [onReceiptsList_filter_skipped env st.synced known receipts]

/-- Witness for C6: the first notification at a concrete state installs
the baseline and emits nothing. -/
theorem c6_onReceipts_baseline_and_skip_witness :
    onReceipts envW stBase "addr" [{ blockHeight := 0, transactionHash := "x", fee := none }] =
      .ok ({ stBase with
              knownReceipts := jsMapSet stBase.knownReceipts "addr"
                (jsMapOfList
                  ([{ blockHeight := 0, transactionHash := "x", fee := none }].map
                    fun r => (r.transactionHash, r))) },
            [], []) :=
  ((c6_onReceipts_baseline_and_skip envW stBase "addr"
    [{ blockHeight := 0, transactionHash := "x", fee := none }]).1 rfl).1

end Electrum
